import Mathlib

/-!
# Verification of the whiteboard relay server (`server/server.js`)

This file gives a shallow embedding of the in-memory room/session/drawing
state machine of the socket server in `server/server.js`, together with the
REST endpoints of that file that touch the same in-memory state, and proves
properties of the room session manager and event-broadcast relay.

JavaScript objects are modelled as association lists (`JsObj`); the spread
`{...data, k: v}` construction used by the handlers is `setProp`, which
overrides a client-supplied key.  The three server maps

  * `rooms        : Map roomId (Set socketId)`
  * `userSessions : Map socketId {roomId, userId}`
  * `roomDrawings : Map roomId (Array drawCommand)`

become functions `String → Option _`, and each socket handler becomes a
transition of `step` returning the successor state plus the list of emitted
events (`Out`), with a broadcast's recipient set resolved at emit time:
`socket.to(room)` is every member except the sender, `io.to(room)` is every
member.  The `setTimeout` scheduled by `leaveRoom` when a room empties is
modelled by a `pending` list of (roomId, fireTime) entries and a `timerFire`
event that runs the callback body.

The fields `recorded`, `lapsedEver` and `clearedEver` of `SState` are ghost
instrumentation: they are written by the transitions but never read by them,
and record respectively every draw-end command ever appended to a room's
log, whether the room's membership ever dropped to zero, and whether a
clear-canvas was ever processed for the room.
-/

/-- Values of the JavaScript payload objects exchanged with clients. -/
inductive JsVal where
  | str (s : String)
  | num (n : Nat)
  | pts (l : List (Nat × Nat))
  | bool (b : Bool)
deriving DecidableEq, Repr

/-- A JavaScript object, as an association list of fields. -/
abbrev JsObj : Type := List (String × JsVal)

/-- Field lookup on a `JsObj`. -/
def getProp (o : JsObj) (k : String) : Option JsVal :=
  (o.find? (fun p => p.1 = k)).map (fun p => p.2)

/-- Property assignment: the semantics of `{...o, k: v}` — any value `o`
carried for `k` is overridden. -/
def setProp (o : JsObj) (k : String) (v : JsVal) : JsObj :=
  o.filter (fun p => p.1 ≠ k) ++ [(k, v)]

/-- A user session record, `userSessions.get(socketId)` in `server.js`. -/
structure Session where
  roomId : String
  userId : String
deriving DecidableEq, Repr

/-- Payload of a server-to-client emit. -/
inductive Payload where
  | drawingData (cmds : List JsObj)
  | obj (o : JsObj)
  | roomJoined (roomId : String) (userCount : Nat)
  | userCount (n : Nat)
deriving DecidableEq, Repr

/-- One outbound emit, with the recipient socket ids resolved at emit time. -/
structure Out where
  recipients : List String
  event : String
  payload : Payload
deriving DecidableEq, Repr

/-- The in-memory server state of `server.js` (plus ghost instrumentation,
see the module docstring). -/
structure SState where
  rooms : String → Option (List String)
  sessions : String → Option Session
  roomDrawings : String → Option (List JsObj)
  pending : List (String × Nat)
  recorded : String → List JsObj
  lapsedEver : String → Bool
  clearedEver : String → Bool

/-- The state at server start: all three maps empty, no timers. -/
def init : SState where
  rooms := fun _ => none
  sessions := fun _ => none
  roomDrawings := fun _ => none
  pending := []
  recorded := fun _ => []
  lapsedEver := fun _ => false
  clearedEver := fun _ => false

/-- Pointwise update of a map modelled as a function. -/
def upd {α : Type} (m : String → Option α) (k : String) (v : Option α) :
    String → Option α :=
  fun k' => if k' = k then v else m k'

/-- Current members of a room (empty if the room is absent). -/
def membersD (s : SState) (r : String) : List String :=
  (s.rooms r).getD []

/-- Current drawing log of a room (empty if absent), `roomDrawings.get(r) || []`. -/
def drawingsD (s : SState) (r : String) : List JsObj :=
  (s.roomDrawings r).getD []

/-- Recipients of `socket.to(room).emit(...)`: every room member except the
sender. -/
def sockTo (s : SState) (r : String) (sender : String) : List String :=
  (membersD s r).filter (fun x => x ≠ sender)

/-- Recipients of `io.to(room).emit(...)`: every room member. -/
def ioTo (s : SState) (r : String) : List String :=
  membersD s r

/-- `String.prototype.toUpperCase` on the character sequence. -/
def jsToUpper (s : String) : String :=
  String.mk (s.data.map Char.toUpper)

/-- `String.prototype.trim`: strip leading and trailing whitespace. -/
def jsTrim (s : String) : String :=
  String.mk
    (((s.data.dropWhile Char.isWhitespace).reverse.dropWhile
        Char.isWhitespace).reverse)

/-- Room id normalization used by the join paths: `roomId.toUpperCase().trim()`. -/
def normalizeRoomId (rid : String) : String :=
  jsTrim (jsToUpper rid)

/-- `userId || \x60user-${Date.now()}\x60` of the join handler (the empty
string is falsy in JavaScript). -/
def resolveUid (uidOpt : Option String) (now : Nat) : String :=
  match uidOpt with
  | some u => if u = "" then "user-" ++ toString now else u
  | none => "user-" ++ toString now

/-- `Set.add`: append the element if it is not already present. -/
def addMember (l : List String) (sid : String) : List String :=
  if sid ∈ l then l else l ++ [sid]

/-- The grace window of the deferred room cleanup: `5 * 60 * 1000` ms. -/
def graceWindowMs : Nat := 5 * 60 * 1000

/-- The helper `leaveRoom(socket, roomId)` of `server.js` (lines 276-314):
early return when the id is falsy or the room is untracked; otherwise remove
the socket from the member set, on reaching zero members delete the room and
schedule the drawing-log cleanup after the grace window, emit the updated
user count to the remaining members, and delete the session. -/
def leaveRoomS (s : SState) (sid : String) (rid : String) (now : Nat) :
    SState × List Out :=
  if rid = "" then (s, []) else
  match s.rooms rid with
  | none => (s, [])
  | some users =>
    let users' := users.erase sid
    let s1 : SState :=
      if users'.length = 0 then
        { s with rooms := upd s.rooms rid none,
                 pending := s.pending ++ [(rid, now + graceWindowMs)],
                 lapsedEver := fun r => if r = rid then true else s.lapsedEver r }
      else
        { s with rooms := upd s.rooms rid (some users') }
    let outs := [⟨ioTo s1 rid, "user-count-update", .userCount users'.length⟩]
    ({ s1 with sessions := upd s1.sessions sid none }, outs)

/-- The part of the `join-room` handler after the previous room has been
left (lines 90-117): create the room (with an empty drawing log) if absent,
add the member, store the session, send the current log to the joiner, and
notify the room. -/
def joinCore (s : SState) (sid rid uid : String) : SState × List Out :=
  let s2 : SState :=
    match s.rooms rid with
    | none =>
      { s with rooms := upd s.rooms rid (some []),
               roomDrawings := upd s.roomDrawings rid (some []) }
    | some _ => s
  let mems' := addMember ((s2.rooms rid).getD []) sid
  let s3 : SState :=
    { s2 with rooms := upd s2.rooms rid (some mems'),
              sessions := upd s2.sessions sid (some ⟨rid, uid⟩) }
  let snapshot := (s3.roomDrawings rid).getD []
  (s3, [⟨[sid], "drawing-data", .drawingData snapshot⟩,
        ⟨ioTo s3 rid, "room-joined", .roomJoined rid mems'.length⟩,
        ⟨ioTo s3 rid, "user-count-update", .userCount mems'.length⟩])

/-- The `join-room` handler (lines 79-137): normalize the room id, leave any
previous room, then `joinCore`. -/
def stepJoin (s : SState) (sid rid0 : String) (uidOpt : Option String)
    (now : Nat) : SState × List Out :=
  let rid := normalizeRoomId rid0
  let uid := resolveUid uidOpt now
  match s.sessions sid with
  | some prev =>
    let lr := leaveRoomS s sid prev.roomId now
    let jc := joinCore lr.1 sid rid uid
    (jc.1, lr.2 ++ jc.2)
  | none => joinCore s sid rid uid

/-- The `cursor-move` handler (lines 140-151): drop without a session,
otherwise broadcast the position to the room excluding the sender. -/
def stepCursor (s : SState) (sid : String) (x y : JsVal) (now : Nat) :
    SState × List Out :=
  match s.sessions sid with
  | none => (s, [])
  | some sess =>
    (s, [⟨sockTo s sess.roomId sid, "cursor-update",
          .obj [("userId", .str sess.userId), ("socketId", .str sid),
                ("x", x), ("y", y), ("timestamp", .num now)]⟩])

/-- The payload `{...data, userId, socketId, timestamp}` built by the
draw handlers. -/
def mkDrawData (data : JsObj) (u sid : String) (now : Nat) : JsObj :=
  setProp (setProp (setProp data "userId" (.str u)) "socketId" (.str sid))
    "timestamp" (.num now)

/-- The payload `{...data, userId, socketId, timestamp, type: 'stroke'}`
built by the `draw-end` handler. -/
def mkDrawEndData (data : JsObj) (u sid : String) (now : Nat) : JsObj :=
  setProp (mkDrawData data u sid now) "type" (.str "stroke")

/-- The `draw-start` handler (lines 154-166): not persisted; broadcast to
the room excluding the sender. -/
def stepDrawStart (s : SState) (sid : String) (data : JsObj) (now : Nat) :
    SState × List Out :=
  match s.sessions sid with
  | none => (s, [])
  | some sess =>
    (s, [⟨sockTo s sess.roomId sid, "draw-start",
          .obj (mkDrawData data sess.userId sid now)⟩])

/-- The `draw-move` handler (lines 169-181): not persisted; broadcast to the
room excluding the sender. -/
def stepDrawMove (s : SState) (sid : String) (data : JsObj) (now : Nat) :
    SState × List Out :=
  match s.sessions sid with
  | none => (s, [])
  | some sess =>
    (s, [⟨sockTo s sess.roomId sid, "draw-move",
          .obj (mkDrawData data sess.userId sid now)⟩])

/-- The `draw-end` handler (lines 184-222): append the completed stroke to
the room's in-memory log and broadcast it to the room excluding the sender. -/
def stepDrawEnd (s : SState) (sid : String) (data : JsObj) (now : Nat) :
    SState × List Out :=
  match s.sessions sid with
  | none => (s, [])
  | some sess =>
    let dd := mkDrawEndData data sess.userId sid now
    let s' : SState :=
      { s with
          roomDrawings :=
            upd s.roomDrawings sess.roomId (some (drawingsD s sess.roomId ++ [dd])),
          recorded := fun r =>
            if r = sess.roomId then s.recorded r ++ [dd] else s.recorded r }
    (s', [⟨sockTo s' sess.roomId sid, "draw-end", .obj dd⟩])

/-- The `clear-canvas` handler (lines 225-255): reset the room's log to the
empty array and notify the whole room, sender included. -/
def stepClear (s : SState) (sid : String) (now : Nat) : SState × List Out :=
  match s.sessions sid with
  | none => (s, [])
  | some sess =>
    let s' : SState :=
      { s with
          roomDrawings := upd s.roomDrawings sess.roomId (some []),
          clearedEver := fun r =>
            if r = sess.roomId then true else s.clearedEver r }
    (s', [⟨ioTo s' sess.roomId, "clear-canvas",
           .obj [("userId", .str sess.userId), ("timestamp", .num now)]⟩])

/-- The `leave-room` handler (lines 258-263): `leaveRoom` on the session's
room when a session exists, otherwise nothing. -/
def stepLeave (s : SState) (sid : String) (now : Nat) : SState × List Out :=
  match s.sessions sid with
  | none => (s, [])
  | some sess => leaveRoomS s sid sess.roomId now

/-- The `disconnect` handler (lines 266-272): same effect as `leave-room`. -/
def stepDisconnect (s : SState) (sid : String) (now : Nat) : SState × List Out :=
  match s.sessions sid with
  | none => (s, [])
  | some sess => leaveRoomS s sid sess.roomId now

/-- The body of the `setTimeout` callback scheduled by `leaveRoom`
(lines 289-294): when the timer fires, delete the room's drawing log only if
the room is still untracked (membership re-checked at fire time). -/
def stepTimer (s : SState) (rid : String) (fireAt : Nat) : SState × List Out :=
  if (rid, fireAt) ∈ s.pending then
    let s1 : SState := { s with pending := s.pending.erase (rid, fireAt) }
    if (s1.rooms rid).isSome then (s1, [])
    else ({ s1 with roomDrawings := upd s1.roomDrawings rid none }, [])
  else (s, [])

/-- The inbound transport events of the relay. -/
inductive Ev where
  | joinRoom (sid rid : String) (uidOpt : Option String) (now : Nat)
  | cursorMove (sid : String) (x y : JsVal) (now : Nat)
  | drawStart (sid : String) (data : JsObj) (now : Nat)
  | drawMove (sid : String) (data : JsObj) (now : Nat)
  | drawEnd (sid : String) (data : JsObj) (now : Nat)
  | clearCanvas (sid : String) (now : Nat)
  | leaveRoom (sid : String) (now : Nat)
  | disconnect (sid : String) (now : Nat)
  | timerFire (rid : String) (fireAt : Nat)
deriving DecidableEq, Repr

/-- One transition of the relay. -/
def step (s : SState) (e : Ev) : SState × List Out :=
  match e with
  | .joinRoom sid rid uidOpt now => stepJoin s sid rid uidOpt now
  | .cursorMove sid x y now => stepCursor s sid x y now
  | .drawStart sid data now => stepDrawStart s sid data now
  | .drawMove sid data now => stepDrawMove s sid data now
  | .drawEnd sid data now => stepDrawEnd s sid data now
  | .clearCanvas sid now => stepClear s sid now
  | .leaveRoom sid now => stepLeave s sid now
  | .disconnect sid now => stepDisconnect s sid now
  | .timerFire rid fireAt => stepTimer s rid fireAt

/-- Run a trace of events from a given state. -/
def runFrom (s : SState) (t : List Ev) : SState :=
  t.foldl (fun s e => (step s e).1) s

/-- Run a trace of events from server start. -/
def run (t : List Ev) : SState :=
  runFrom init t

/-- The drawing-data snapshots among a list of emits. -/
def snapshots (outs : List Out) : List (List JsObj) :=
  outs.filterMap fun o =>
    match o.payload with
    | .drawingData l => some l
    | _ => none

/-- The `GET /api/rooms/:roomId` endpoint of `server.js` (lines 388-400):
note the lookup key is `req.params.roomId.toUpperCase()`, with no trim. -/
structure RoomInfo where
  roomId : String
  activeUsers : Nat
  drawingCount : Nat
  roomKnown : Bool
deriving DecidableEq, Repr

/-- Response of `GET /api/rooms/:roomId` computed from the in-memory state. -/
def getRoomInfo (s : SState) (ridParam : String) : RoomInfo :=
  let roomId := jsToUpper ridParam
  let activeUsers := (membersD s roomId).length
  let drawingData := drawingsD s roomId
  { roomId := roomId
    activeUsers := activeUsers
    drawingCount := drawingData.length
    roomKnown := activeUsers > 0 || drawingData.length > 0 }

/-- The room id format filter `^[A-Z0-9]{6,8}$` of the REST join endpoint. -/
def validRoomId (rid : String) : Bool :=
  6 ≤ rid.length && rid.length ≤ 8 &&
    rid.toList.all (fun c => ('A' ≤ c && c ≤ 'Z') || ('0' ≤ c && c ≤ '9'))

/-- Response of `POST /api/rooms/join` of `server.js` (lines 333-385),
restricted to the in-memory path (no database connected): normalize, filter
on the id format, and read the in-memory log under the normalized key.
`none` models the 400 validation rejection. -/
def restJoin (s : SState) (rid0 : String) : Option (String × List JsObj × Nat) :=
  let rid := normalizeRoomId rid0
  if validRoomId rid then
    some (rid, drawingsD s rid, (membersD s rid).length)
  else
    none

/-! ## Basic lemmas about the map and object operations -/

theorem upd_same {α : Type} (m : String → Option α) (k : String) (v : Option α) :
    upd m k v k = v := by
  simp [upd]

theorem upd_ne {α : Type} (m : String → Option α) {k k' : String} (v : Option α)
    (h : k' ≠ k) : upd m k v k' = m k' := by
  simp [upd, h]

theorem upd_upd {α : Type} (m : String → Option α) (k : String) (v w : Option α) :
    upd (upd m k v) k w = upd m k w := by
  funext x
  by_cases hx : x = k <;> simp [upd, hx]

theorem getProp_setProp_same (o : JsObj) (k : String) (v : JsVal) :
    getProp (setProp o k v) k = some v := by
  unfold getProp setProp
  rw [List.find?_append]
  have h1 : (o.filter (fun p => decide (p.1 ≠ k))).find?
      (fun p => decide (p.1 = k)) = none := by
    rw [List.find?_eq_none]
    intro x hx
    have hmem := List.of_mem_filter hx
    simp only [decide_not, Bool.not_eq_eq_eq_not, Bool.not_true,
      decide_eq_false_iff_not] at hmem
    simp [hmem]
  rw [h1]
  simp

theorem find?_filter_ne (o : JsObj) (k k' : String) (h : k' ≠ k) :
    (o.filter (fun p => p.1 ≠ k)).find? (fun p => p.1 = k') =
      o.find? (fun p => p.1 = k') := by
  induction o with
  | nil => rfl
  | cons p o ih =>
    rw [List.filter_cons]
    by_cases hk : p.1 = k
    · rw [if_neg (by simp [hk])]
      have hq : ¬ p.1 = k' := by
        rw [hk]
        exact Ne.symm h
      rw [ih, List.find?_cons_of_neg _ (by simp [hq])]
    · rw [if_pos (by simp [hk])]
      by_cases hk' : p.1 = k'
      · rw [List.find?_cons_of_pos _ (by simp [hk']),
            List.find?_cons_of_pos _ (by simp [hk'])]
      · rw [List.find?_cons_of_neg _ (by simp [hk']),
            List.find?_cons_of_neg _ (by simp [hk']), ih]

theorem getProp_setProp_ne (o : JsObj) {k k' : String} (v : JsVal)
    (h : k' ≠ k) : getProp (setProp o k v) k' = getProp o k' := by
  unfold getProp setProp
  rw [List.find?_append, find?_filter_ne o k k' h]
  have h2 : ([(k, v)].find? (fun p => decide (p.1 = k'))) = none := by
    simp [List.find?_singleton, Ne.symm h]
  rw [h2]
  simp

theorem mem_addMember (l : List String) (sid x : String) :
    x ∈ addMember l sid ↔ x ∈ l ∨ x = sid := by
  unfold addMember
  split
  · next h =>
    constructor
    · exact fun hx => Or.inl hx
    · rintro (hx | rfl)
      · exact hx
      · exact h
  · simp

theorem mem_addMember_self (l : List String) (sid : String) :
    sid ∈ addMember l sid :=
  (mem_addMember l sid sid).2 (Or.inr rfl)

theorem nodup_addMember (l : List String) (sid : String) (h : l.Nodup) :
    (addMember l sid).Nodup := by
  unfold addMember
  split
  · exact h
  · next hn =>
    rw [List.nodup_append]
    exact ⟨h, List.nodup_singleton sid, by
      intro a ha hb
      rw [List.mem_singleton] at hb
      subst hb
      exact hn ha⟩

/-! ## Normal forms of the transition helpers -/

theorem leaveRoomS_empty_id (s : SState) (sid : String) (now : Nat) :
    leaveRoomS s sid "" now = (s, []) := by
  simp [leaveRoomS]

theorem leaveRoomS_absent (s : SState) (sid rid : String) (now : Nat)
    (h1 : rid ≠ "") (h2 : s.rooms rid = none) :
    leaveRoomS s sid rid now = (s, []) := by
  simp [leaveRoomS, h1, h2]

theorem leaveRoomS_pos (s : SState) (sid rid : String) (now : Nat)
    (users : List String) (h1 : rid ≠ "") (h2 : s.rooms rid = some users)
    (h3 : users.erase sid ≠ []) :
    (leaveRoomS s sid rid now).1 =
      { s with rooms := upd s.rooms rid (some (users.erase sid)),
               sessions := upd s.sessions sid none } := by
  have h3' : ¬ (users.erase sid).length = 0 := by
    simpa [List.length_eq_zero] using h3
  simp [leaveRoomS, h1, h2, h3']

theorem leaveRoomS_zero (s : SState) (sid rid : String) (now : Nat)
    (users : List String) (h1 : rid ≠ "") (h2 : s.rooms rid = some users)
    (h3 : users.erase sid = []) :
    (leaveRoomS s sid rid now).1 =
      { s with rooms := upd s.rooms rid none,
               pending := s.pending ++ [(rid, now + graceWindowMs)],
               lapsedEver := fun r => if r = rid then true else s.lapsedEver r,
               sessions := upd s.sessions sid none } := by
  simp [leaveRoomS, h1, h2, h3]

/-! ## The reachable-state invariant -/

/-- Invariant of reachable server states.  `logGhost` ties the live drawing
log to the ghost record of appended strokes while the room never emptied and
was never cleared; `pendingLapsed` says cleanup timers exist only for rooms
that emptied at some point; `recordedRoom` says a room with recorded strokes
and no lapse is still tracked; `sessionMember` says every session holder is
a member of its room; `membersNodup` says member lists are sets. -/
structure SInv (s : SState) : Prop where
  logGhost : ∀ r, s.lapsedEver r = false → s.clearedEver r = false →
    drawingsD s r = s.recorded r
  pendingLapsed : ∀ r f, (r, f) ∈ s.pending → s.lapsedEver r = true
  recordedRoom : ∀ r, s.lapsedEver r = false → s.recorded r ≠ [] →
    (s.rooms r).isSome
  sessionMember : ∀ sid sess, s.sessions sid = some sess →
    ∃ mems, s.rooms sess.roomId = some mems ∧ sid ∈ mems
  membersNodup : ∀ r mems, s.rooms r = some mems → mems.Nodup

theorem inv_init : SInv init := by
  refine ⟨?_, ?_, ?_, ?_, ?_⟩
  · intro r _ _
    rfl
  · intro r f hf
    simp [init] at hf
  · intro r _ hr
    simp [init] at hr
  · intro sid sess hs
    simp [init] at hs
  · intro r mems hr
    simp [init] at hr

theorem inv_leaveRoomS (s : SState) (sid rid : String) (now : Nat)
    (h : SInv s) : SInv (leaveRoomS s sid rid now).1 := by
  by_cases h0 : rid = ""
  · rw [h0, leaveRoomS_empty_id]
    exact h
  cases hu : s.rooms rid with
  | none =>
    rw [leaveRoomS_absent s sid rid now h0 hu]
    exact h
  | some users =>
    by_cases hz : users.erase sid = []
    · rw [leaveRoomS_zero s sid rid now users h0 hu hz]
      refine ⟨?_, ?_, ?_, ?_, ?_⟩
      · intro r hl hc
        by_cases hr : r = rid
        · simp [hr] at hl
        · simp only [hr, if_false] at hl
          exact h.logGhost r hl hc
      · intro r f hf
        by_cases hr : r = rid
        · simp [hr]
        · simp only [hr, if_false]
          simp only [List.mem_append, List.mem_singleton] at hf
          rcases hf with hf | hf
          · exact h.pendingLapsed r f hf
          · exact absurd (congrArg Prod.fst hf) hr
      · intro r hl hrec
        by_cases hr : r = rid
        · simp [hr] at hl
        · simp only [hr, if_false] at hl
          have := h.recordedRoom r hl hrec
          simpa [upd_ne _ _ hr] using this
      · intro sid' sess hs'
        simp only [upd] at hs'
        by_cases hsid : sid' = sid
        · simp [hsid] at hs'
        · simp only [hsid, if_false] at hs'
          obtain ⟨mems, hm, hmem⟩ := h.sessionMember sid' sess hs'
          by_cases hr : sess.roomId = rid
          · rw [hr, hu] at hm
            obtain rfl : users = mems := by
              injection hm
            have : sid' ∈ users.erase sid :=
              (List.mem_erase_of_ne hsid).2 hmem
            rw [hz] at this
            exact absurd this (List.not_mem_nil sid')
          · exact ⟨mems, by simpa [upd_ne _ _ hr] using hm, hmem⟩
      · intro r mems hr'
        simp only [upd] at hr'
        by_cases hr : r = rid
        · simp [hr] at hr'
        · simp only [hr, if_false] at hr'
          exact h.membersNodup r mems hr'
    · rw [leaveRoomS_pos s sid rid now users h0 hu hz]
      refine ⟨?_, ?_, ?_, ?_, ?_⟩
      · intro r hl hc
        exact h.logGhost r hl hc
      · intro r f hf
        exact h.pendingLapsed r f hf
      · intro r hl hrec
        have := h.recordedRoom r hl hrec
        by_cases hr : r = rid
        · simp [hr, upd_same]
        · simpa [upd_ne _ _ hr] using this
      · intro sid' sess hs'
        simp only [upd] at hs'
        by_cases hsid : sid' = sid
        · simp [hsid] at hs'
        · simp only [hsid, if_false] at hs'
          obtain ⟨mems, hm, hmem⟩ := h.sessionMember sid' sess hs'
          by_cases hr : sess.roomId = rid
          · rw [hr, hu] at hm
            obtain rfl : users = mems := by
              injection hm
            exact ⟨users.erase sid, by simp [hr, upd_same],
              (List.mem_erase_of_ne hsid).2 hmem⟩
          · exact ⟨mems, by simpa [upd_ne _ _ hr] using hm, hmem⟩
      · intro r mems hr'
        simp only [upd] at hr'
        by_cases hr : r = rid
        · simp only [hr, if_true] at hr'
          obtain rfl : users.erase sid = mems := by
            injection hr'
          exact (h.membersNodup rid users hu).erase sid
        · simp only [hr, if_false] at hr'
          exact h.membersNodup r mems hr'

theorem joinCore_absent (s : SState) (sid rid uid : String)
    (h : s.rooms rid = none) :
    joinCore s sid rid uid =
      ({ s with rooms := upd s.rooms rid (some [sid]),
                roomDrawings := upd s.roomDrawings rid (some []),
                sessions := upd s.sessions sid (some ⟨rid, uid⟩) },
       [⟨[sid], "drawing-data", .drawingData []⟩,
        ⟨[sid], "room-joined", .roomJoined rid 1⟩,
        ⟨[sid], "user-count-update", .userCount 1⟩]) := by
  simp [joinCore, h, upd_upd, upd_same, addMember, ioTo, membersD]

theorem joinCore_present (s : SState) (sid rid uid : String)
    (users : List String) (h : s.rooms rid = some users) :
    joinCore s sid rid uid =
      ({ s with rooms := upd s.rooms rid (some (addMember users sid)),
                sessions := upd s.sessions sid (some ⟨rid, uid⟩) },
       [⟨[sid], "drawing-data", .drawingData (drawingsD s rid)⟩,
        ⟨addMember users sid, "room-joined",
          .roomJoined rid (addMember users sid).length⟩,
        ⟨addMember users sid, "user-count-update",
          .userCount (addMember users sid).length⟩]) := by
  simp [joinCore, h, upd_same, ioTo, membersD, drawingsD]

theorem inv_joinCore (s : SState) (sid rid uid : String) (h : SInv s) :
    SInv (joinCore s sid rid uid).1 := by
  cases hu : s.rooms rid with
  | none =>
    rw [joinCore_absent s sid rid uid hu]
    refine ⟨?_, ?_, ?_, ?_, ?_⟩
    · intro r hl hc
      by_cases hr : r = rid
      · subst hr
        have hrec : s.recorded r = [] := by
          by_contra hne
          have := h.recordedRoom r hl hne
          rw [hu] at this
          simp at this
        simp [drawingsD, upd_same, hrec]
      · have := h.logGhost r hl hc
        simpa [drawingsD, upd_ne _ _ hr] using this
    · intro r f hf
      exact h.pendingLapsed r f hf
    · intro r hl hrec
      by_cases hr : r = rid
      · simp [hr, upd_same]
      · have := h.recordedRoom r hl hrec
        simpa [upd_ne _ _ hr] using this
    · intro sid' sess hs'
      simp only [upd] at hs'
      by_cases hsid : sid' = sid
      · simp only [hsid, if_true] at hs'
        obtain rfl : (⟨rid, uid⟩ : Session) = sess := by
          injection hs'
        exact ⟨[sid], by simp [upd_same], by simp [hsid]⟩
      · simp only [hsid, if_false] at hs'
        obtain ⟨mems, hm, hmem⟩ := h.sessionMember sid' sess hs'
        by_cases hr : sess.roomId = rid
        · rw [hr, hu] at hm
          exact absurd hm (by simp)
        · exact ⟨mems, by simpa [upd_ne _ _ hr] using hm, hmem⟩
    · intro r mems hr'
      simp only [upd] at hr'
      by_cases hr : r = rid
      · simp only [hr, if_true] at hr'
        obtain rfl : [sid] = mems := by
          injection hr'
        exact List.nodup_singleton sid
      · simp only [hr, if_false] at hr'
        exact h.membersNodup r mems hr'
  | some users =>
    rw [joinCore_present s sid rid uid users hu]
    refine ⟨?_, ?_, ?_, ?_, ?_⟩
    · intro r hl hc
      exact h.logGhost r hl hc
    · intro r f hf
      exact h.pendingLapsed r f hf
    · intro r hl hrec
      by_cases hr : r = rid
      · simp [hr, upd_same]
      · have := h.recordedRoom r hl hrec
        simpa [upd_ne _ _ hr] using this
    · intro sid' sess hs'
      simp only [upd] at hs'
      by_cases hsid : sid' = sid
      · simp only [hsid, if_true] at hs'
        obtain rfl : (⟨rid, uid⟩ : Session) = sess := by
          injection hs'
        exact ⟨addMember users sid, by simp [upd_same],
          by simpa [hsid] using mem_addMember_self users sid⟩
      · simp only [hsid, if_false] at hs'
        obtain ⟨mems, hm, hmem⟩ := h.sessionMember sid' sess hs'
        by_cases hr : sess.roomId = rid
        · rw [hr, hu] at hm
          obtain rfl : users = mems := by
            injection hm
          exact ⟨addMember users sid, by simp [hr, upd_same],
            (mem_addMember users sid sid').2 (Or.inl hmem)⟩
        · exact ⟨mems, by simpa [upd_ne _ _ hr] using hm, hmem⟩
    · intro r mems hr'
      simp only [upd] at hr'
      by_cases hr : r = rid
      · simp only [hr, if_true] at hr'
        obtain rfl : addMember users sid = mems := by
          injection hr'
        exact nodup_addMember users sid (h.membersNodup rid users hu)
      · simp only [hr, if_false] at hr'
        exact h.membersNodup r mems hr'

theorem inv_stepJoin (s : SState) (sid rid0 : String) (uidOpt : Option String)
    (now : Nat) (h : SInv s) : SInv (stepJoin s sid rid0 uidOpt now).1 := by
  unfold stepJoin
  cases hs : s.sessions sid with
  | none =>
    exact inv_joinCore s sid _ _ h
  | some prev =>
    exact inv_joinCore _ sid _ _ (inv_leaveRoomS s sid prev.roomId now h)

theorem inv_stepCursor (s : SState) (sid : String) (x y : JsVal) (now : Nat)
    (h : SInv s) : SInv (stepCursor s sid x y now).1 := by
  unfold stepCursor
  cases hs : s.sessions sid <;> exact h

theorem inv_stepDrawStart (s : SState) (sid : String) (d : JsObj) (now : Nat)
    (h : SInv s) : SInv (stepDrawStart s sid d now).1 := by
  unfold stepDrawStart
  cases hs : s.sessions sid <;> exact h

theorem inv_stepDrawMove (s : SState) (sid : String) (d : JsObj) (now : Nat)
    (h : SInv s) : SInv (stepDrawMove s sid d now).1 := by
  unfold stepDrawMove
  cases hs : s.sessions sid <;> exact h

theorem inv_stepDrawEnd (s : SState) (sid : String) (d : JsObj) (now : Nat)
    (h : SInv s) : SInv (stepDrawEnd s sid d now).1 := by
  unfold stepDrawEnd
  cases hs : s.sessions sid with
  | none => exact h
  | some sess =>
    refine ⟨?_, ?_, ?_, ?_, ?_⟩
    · intro r hl hc
      by_cases hr : r = sess.roomId
      · subst hr
        have hgl := h.logGhost sess.roomId hl hc
        simp only [drawingsD] at hgl ⊢
        simp [upd_same, hgl]
      · have := h.logGhost r hl hc
        simpa [drawingsD, upd_ne _ _ hr, hr] using this
    · intro r f hf
      exact h.pendingLapsed r f hf
    · intro r hl hrec
      by_cases hr : r = sess.roomId
      · subst hr
        obtain ⟨mems, hm, _⟩ := h.sessionMember sid sess hs
        simp [hm]
      · simp only [hr, if_false] at hrec
        exact h.recordedRoom r hl hrec
    · intro sid' sess' hs'
      exact h.sessionMember sid' sess' hs'
    · intro r mems hr'
      exact h.membersNodup r mems hr'

theorem inv_stepClear (s : SState) (sid : String) (now : Nat)
    (h : SInv s) : SInv (stepClear s sid now).1 := by
  unfold stepClear
  cases hs : s.sessions sid with
  | none => exact h
  | some sess =>
    refine ⟨?_, ?_, ?_, ?_, ?_⟩
    · intro r hl hc
      by_cases hr : r = sess.roomId
      · simp [hr] at hc
      · have := h.logGhost r hl (by simpa [hr] using hc)
        simpa [drawingsD, upd_ne _ _ hr] using this
    · intro r f hf
      exact h.pendingLapsed r f hf
    · intro r hl hrec
      exact h.recordedRoom r hl hrec
    · intro sid' sess' hs'
      exact h.sessionMember sid' sess' hs'
    · intro r mems hr'
      exact h.membersNodup r mems hr'

theorem inv_stepLeave (s : SState) (sid : String) (now : Nat)
    (h : SInv s) : SInv (stepLeave s sid now).1 := by
  unfold stepLeave
  cases hs : s.sessions sid with
  | none => exact h
  | some sess => exact inv_leaveRoomS s sid sess.roomId now h

theorem inv_stepDisconnect (s : SState) (sid : String) (now : Nat)
    (h : SInv s) : SInv (stepDisconnect s sid now).1 := by
  unfold stepDisconnect
  cases hs : s.sessions sid with
  | none => exact h
  | some sess => exact inv_leaveRoomS s sid sess.roomId now h

theorem inv_stepTimer (s : SState) (rid : String) (fireAt : Nat)
    (h : SInv s) : SInv (stepTimer s rid fireAt).1 := by
  unfold stepTimer
  by_cases hp : (rid, fireAt) ∈ s.pending
  · have hlap : s.lapsedEver rid = true := h.pendingLapsed rid fireAt hp
    cases hro : s.rooms rid with
    | some users =>
      simp only [hp, if_true, hro, Option.isSome_some]
      refine ⟨?_, ?_, ?_, ?_, ?_⟩
      · intro r hl hc
        exact h.logGhost r hl hc
      · intro r f hf
        exact h.pendingLapsed r f (List.mem_of_mem_erase hf)
      · intro r hl hrec
        exact h.recordedRoom r hl hrec
      · intro sid' sess' hs'
        exact h.sessionMember sid' sess' hs'
      · intro r mems hr'
        exact h.membersNodup r mems hr'
    | none =>
      simp only [hp, if_true, hro, Option.isSome_none, Bool.false_eq_true,
        if_false]
      refine ⟨?_, ?_, ?_, ?_, ?_⟩
      · intro r hl hc
        by_cases hrr : r = rid
        · rw [hrr] at hl
          rw [hl] at hlap
          exact absurd hlap (by simp)
        · have := h.logGhost r hl hc
          simpa [drawingsD, upd_ne _ _ hrr] using this
      · intro r f hf
        exact h.pendingLapsed r f (List.mem_of_mem_erase hf)
      · intro r hl hrec
        exact h.recordedRoom r hl hrec
      · intro sid' sess' hs'
        exact h.sessionMember sid' sess' hs'
      · intro r mems hr'
        exact h.membersNodup r mems hr'
  · simp only [hp, if_false]
    exact h

theorem inv_step (s : SState) (e : Ev) (h : SInv s) : SInv (step s e).1 := by
  cases e with
  | joinRoom sid rid uidOpt now => exact inv_stepJoin s sid rid uidOpt now h
  | cursorMove sid x y now => exact inv_stepCursor s sid x y now h
  | drawStart sid d now => exact inv_stepDrawStart s sid d now h
  | drawMove sid d now => exact inv_stepDrawMove s sid d now h
  | drawEnd sid d now => exact inv_stepDrawEnd s sid d now h
  | clearCanvas sid now => exact inv_stepClear s sid now h
  | leaveRoom sid now => exact inv_stepLeave s sid now h
  | disconnect sid now => exact inv_stepDisconnect s sid now h
  | timerFire rid fireAt => exact inv_stepTimer s rid fireAt h

theorem inv_runFrom (t : List Ev) : ∀ s : SState, SInv s → SInv (runFrom s t) := by
  induction t with
  | nil =>
    intro s h
    exact h
  | cons e t ih =>
    intro s h
    exact ih (step s e).1 (inv_step s e h)

theorem inv_run (t : List Ev) : SInv (run t) :=
  inv_runFrom t init inv_init

theorem run_snoc (t : List Ev) (e : Ev) :
    run (t ++ [e]) = (step (run t) e).1 := by
  unfold run runFrom
  rw [List.foldl_append]
  rfl

/-- Every member of a tracked room holds a session pointing back at that
room.  This holds along traces whose join events carry ids that are nonempty
after normalization (ids that passed the room-id validation always are); a
whitespace-only id defeats `leaveRoom`'s falsy-id guard and breaks it. -/
def MemberSession (s : SState) : Prop :=
  ∀ r mems sid, s.rooms r = some mems → sid ∈ mems →
    ∃ u, s.sessions sid = some ⟨r, u⟩

/-- No session points at the empty room id. -/
def SessionsNonempty (s : SState) : Prop :=
  ∀ sid sess, s.sessions sid = some sess → sess.roomId ≠ ""

/-- An event whose room id survives normalization (trivially true for
non-join events). -/
def validJoin (e : Ev) : Bool :=
  match e with
  | .joinRoom _ rid _ _ => normalizeRoomId rid ≠ ""
  | _ => true

/-- All join events of the trace carry ids that are nonempty after
normalization. -/
def validJoins (t : List Ev) : Bool :=
  t.all validJoin

theorem ms_leaveRoomS (s : SState) (sid : String) (now : Nat) (sess : Session)
    (h : SInv s) (hm : MemberSession s)
    (hs : s.sessions sid = some sess) :
    MemberSession (leaveRoomS s sid sess.roomId now).1 := by
  by_cases h0 : sess.roomId = ""
  · rw [h0, leaveRoomS_empty_id]
    exact hm
  cases hu : s.rooms sess.roomId with
  | none =>
    rw [leaveRoomS_absent s sid sess.roomId now h0 hu]
    exact hm
  | some users =>
    have hnd : users.Nodup := h.membersNodup sess.roomId users hu
    by_cases hz : users.erase sid = []
    · rw [leaveRoomS_zero s sid sess.roomId now users h0 hu hz]
      intro r mems x hrm hx
      simp only [upd] at hrm
      by_cases hr : r = sess.roomId
      · simp [hr] at hrm
      · simp only [hr, if_false] at hrm
        obtain ⟨u, hu'⟩ := hm r mems x hrm hx
        by_cases hxs : x = sid
        · rw [hxs, hs] at hu'
          obtain rfl : sess = ⟨r, u⟩ := by
            injection hu'
          exact absurd rfl hr
        · exact ⟨u, by simpa [upd, hxs] using hu'⟩
    · rw [leaveRoomS_pos s sid sess.roomId now users h0 hu hz]
      intro r mems x hrm hx
      simp only [upd] at hrm
      by_cases hr : r = sess.roomId
      · simp only [hr, if_true] at hrm
        obtain rfl : users.erase sid = mems := by
          injection hrm
        obtain ⟨hxs, hxu⟩ := (hnd.mem_erase_iff).1 hx
        obtain ⟨u, hu'⟩ := hm sess.roomId users x hu hxu
        exact ⟨u, by simpa [upd, hr, hxs] using hu'⟩
      · simp only [hr, if_false] at hrm
        obtain ⟨u, hu'⟩ := hm r mems x hrm hx
        by_cases hxs : x = sid
        · rw [hxs, hs] at hu'
          obtain rfl : sess = ⟨r, u⟩ := by
            injection hu'
          exact absurd rfl hr
        · exact ⟨u, by simpa [upd, hxs] using hu'⟩

theorem ms_joinCore (s : SState) (sid rid uid : String)
    (hm : MemberSession s) (hfree : s.sessions sid = none) :
    MemberSession (joinCore s sid rid uid).1 := by
  have hnomem : ∀ r mems, s.rooms r = some mems → sid ∉ mems := by
    intro r mems hrm hmem
    obtain ⟨u, hu⟩ := hm r mems sid hrm hmem
    rw [hfree] at hu
    exact absurd hu (by simp)
  cases hu : s.rooms rid with
  | none =>
    rw [joinCore_absent s sid rid uid hu]
    intro r mems x hrm hx
    simp only [upd] at hrm
    by_cases hr : r = rid
    · simp only [hr, if_true] at hrm
      obtain rfl : [sid] = mems := by
        injection hrm
      rw [List.mem_singleton] at hx
      exact ⟨uid, by simp [upd, hx, hr]⟩
    · simp only [hr, if_false] at hrm
      obtain ⟨u, hu'⟩ := hm r mems x hrm hx
      by_cases hxs : x = sid
      · rw [hxs, hfree] at hu'
        exact absurd hu' (by simp)
      · exact ⟨u, by simpa [upd, hxs] using hu'⟩
  | some users =>
    rw [joinCore_present s sid rid uid users hu]
    intro r mems x hrm hx
    simp only [upd] at hrm
    by_cases hr : r = rid
    · simp only [hr, if_true] at hrm
      obtain rfl : addMember users sid = mems := by
        injection hrm
      rcases (mem_addMember users sid x).1 hx with hxu | rfl
      · by_cases hxs : x = sid
        · exact ⟨uid, by simp [upd, hxs, hr]⟩
        · obtain ⟨u, hu'⟩ := hm rid users x hu hxu
          exact ⟨u, by simpa [upd, hxs, hr] using hu'⟩
      · exact ⟨uid, by simp [upd, hr]⟩
    · simp only [hr, if_false] at hrm
      obtain ⟨u, hu'⟩ := hm r mems x hrm hx
      by_cases hxs : x = sid
      · rw [hxs, hfree] at hu'
        exact absurd hu' (by simp)
      · exact ⟨u, by simpa [upd, hxs] using hu'⟩

theorem leaveRoomS_sessions_self (s : SState) (sid rid : String) (now : Nat)
    (users : List String) (h0 : rid ≠ "") (hu : s.rooms rid = some users) :
    (leaveRoomS s sid rid now).1.sessions sid = none := by
  by_cases hz : users.erase sid = []
  · rw [leaveRoomS_zero s sid rid now users h0 hu hz]
    simp [upd_same]
  · rw [leaveRoomS_pos s sid rid now users h0 hu hz]
    simp [upd_same]

theorem sn_leaveRoomS (s : SState) (sid rid : String) (now : Nat)
    (hn : SessionsNonempty s) :
    SessionsNonempty (leaveRoomS s sid rid now).1 := by
  by_cases h0 : rid = ""
  · rw [h0, leaveRoomS_empty_id]
    exact hn
  cases hu : s.rooms rid with
  | none =>
    rw [leaveRoomS_absent s sid rid now h0 hu]
    exact hn
  | some users =>
    by_cases hz : users.erase sid = []
    · rw [leaveRoomS_zero s sid rid now users h0 hu hz]
      intro x sess hx
      simp only [upd] at hx
      by_cases hxs : x = sid
      · simp [hxs] at hx
      · simp only [hxs, if_false] at hx
        exact hn x sess hx
    · rw [leaveRoomS_pos s sid rid now users h0 hu hz]
      intro x sess hx
      simp only [upd] at hx
      by_cases hxs : x = sid
      · simp [hxs] at hx
      · simp only [hxs, if_false] at hx
        exact hn x sess hx

theorem sn_joinCore (s : SState) (sid rid uid : String)
    (hn : SessionsNonempty s) (hrid : rid ≠ "") :
    SessionsNonempty (joinCore s sid rid uid).1 := by
  cases hu : s.rooms rid with
  | none =>
    rw [joinCore_absent s sid rid uid hu]
    intro x sess hx
    simp only [upd] at hx
    by_cases hxs : x = sid
    · simp only [hxs, if_true] at hx
      obtain rfl : (⟨rid, uid⟩ : Session) = sess := by
        injection hx
      exact hrid
    · simp only [hxs, if_false] at hx
      exact hn x sess hx
  | some users =>
    rw [joinCore_present s sid rid uid users hu]
    intro x sess hx
    simp only [upd] at hx
    by_cases hxs : x = sid
    · simp only [hxs, if_true] at hx
      obtain rfl : (⟨rid, uid⟩ : Session) = sess := by
        injection hx
      exact hrid
    · simp only [hxs, if_false] at hx
      exact hn x sess hx

theorem joinCore_sessions_self (s : SState) (sid rid uid : String) :
    (joinCore s sid rid uid).1.sessions sid = some ⟨rid, uid⟩ := by
  cases hu : s.rooms rid with
  | none =>
    rw [joinCore_absent s sid rid uid hu]
    simp [upd_same]
  | some users =>
    rw [joinCore_present s sid rid uid users hu]
    simp [upd_same]

theorem stepJoin_sessions_self (s : SState) (sid rid0 : String)
    (uidOpt : Option String) (now : Nat) :
    (stepJoin s sid rid0 uidOpt now).1.sessions sid =
      some ⟨normalizeRoomId rid0, resolveUid uidOpt now⟩ := by
  unfold stepJoin
  cases hs : s.sessions sid with
  | none => exact joinCore_sessions_self s sid _ _
  | some prev => exact joinCore_sessions_self _ sid _ _

theorem msn_step (s : SState) (e : Ev) (hv : validJoin e = true)
    (h : SInv s) (hm : MemberSession s) (hn : SessionsNonempty s) :
    MemberSession (step s e).1 ∧ SessionsNonempty (step s e).1 := by
  cases e with
  | joinRoom sid rid0 uidOpt now =>
    have hrid : normalizeRoomId rid0 ≠ "" := by
      simpa [validJoin] using hv
    show MemberSession (stepJoin s sid rid0 uidOpt now).1 ∧
      SessionsNonempty (stepJoin s sid rid0 uidOpt now).1
    unfold stepJoin
    cases hs : s.sessions sid with
    | none =>
      exact ⟨ms_joinCore s sid _ _ hm hs, sn_joinCore s sid _ _ hn hrid⟩
    | some prev =>
      have h0 : prev.roomId ≠ "" := hn sid prev hs
      obtain ⟨users, hu, _⟩ := h.sessionMember sid prev hs
      have hfree : (leaveRoomS s sid prev.roomId now).1.sessions sid = none :=
        leaveRoomS_sessions_self s sid prev.roomId now users h0 hu
      exact ⟨ms_joinCore _ sid _ _ (ms_leaveRoomS s sid now prev h hm hs) hfree,
        sn_joinCore _ sid _ _ (sn_leaveRoomS s sid prev.roomId now hn) hrid⟩
  | cursorMove sid x y now =>
    show MemberSession (stepCursor s sid x y now).1 ∧
      SessionsNonempty (stepCursor s sid x y now).1
    unfold stepCursor
    cases hs : s.sessions sid <;> exact ⟨hm, hn⟩
  | drawStart sid d now =>
    show MemberSession (stepDrawStart s sid d now).1 ∧
      SessionsNonempty (stepDrawStart s sid d now).1
    unfold stepDrawStart
    cases hs : s.sessions sid <;> exact ⟨hm, hn⟩
  | drawMove sid d now =>
    show MemberSession (stepDrawMove s sid d now).1 ∧
      SessionsNonempty (stepDrawMove s sid d now).1
    unfold stepDrawMove
    cases hs : s.sessions sid <;> exact ⟨hm, hn⟩
  | drawEnd sid d now =>
    show MemberSession (stepDrawEnd s sid d now).1 ∧
      SessionsNonempty (stepDrawEnd s sid d now).1
    unfold stepDrawEnd
    cases hs : s.sessions sid <;> exact ⟨hm, hn⟩
  | clearCanvas sid now =>
    show MemberSession (stepClear s sid now).1 ∧
      SessionsNonempty (stepClear s sid now).1
    unfold stepClear
    cases hs : s.sessions sid <;> exact ⟨hm, hn⟩
  | leaveRoom sid now =>
    show MemberSession (stepLeave s sid now).1 ∧
      SessionsNonempty (stepLeave s sid now).1
    unfold stepLeave
    cases hs : s.sessions sid with
    | none => exact ⟨hm, hn⟩
    | some sess =>
      exact ⟨ms_leaveRoomS s sid now sess h hm hs,
        sn_leaveRoomS s sid sess.roomId now hn⟩
  | disconnect sid now =>
    show MemberSession (stepDisconnect s sid now).1 ∧
      SessionsNonempty (stepDisconnect s sid now).1
    unfold stepDisconnect
    cases hs : s.sessions sid with
    | none => exact ⟨hm, hn⟩
    | some sess =>
      exact ⟨ms_leaveRoomS s sid now sess h hm hs,
        sn_leaveRoomS s sid sess.roomId now hn⟩
  | timerFire rid fireAt =>
    show MemberSession (stepTimer s rid fireAt).1 ∧
      SessionsNonempty (stepTimer s rid fireAt).1
    unfold stepTimer
    by_cases hp : (rid, fireAt) ∈ s.pending
    · simp only [hp, if_true]
      cases hro : (({ s with pending := s.pending.erase (rid, fireAt) } :
          SState).rooms rid).isSome <;> simp_all <;> exact ⟨hm, hn⟩
    · simp only [hp, if_false]
      exact ⟨hm, hn⟩

theorem msn_runFrom (t : List Ev) :
    ∀ s : SState, validJoins t = true → SInv s → MemberSession s →
      SessionsNonempty s →
      MemberSession (runFrom s t) ∧ SessionsNonempty (runFrom s t) := by
  induction t with
  | nil =>
    intro s _ _ hm hn
    exact ⟨hm, hn⟩
  | cons e t ih =>
    intro s hv h hm hn
    rw [validJoins, List.all_cons, Bool.and_eq_true] at hv
    obtain ⟨hm', hn'⟩ := msn_step s e hv.1 h hm hn
    exact ih (step s e).1 hv.2 (inv_step s e h) hm' hn'

theorem msn_run (t : List Ev) (hv : validJoins t = true) :
    MemberSession (run t) ∧ SessionsNonempty (run t) := by
  refine msn_runFrom t init hv inv_init ?_ ?_
  · intro r mems sid hrm _
    simp [init] at hrm
  · intro sid sess hs
    simp [init] at hs

/-! ## Snapshot and frame lemmas for the join path -/

theorem snapshots_append (a b : List Out) :
    snapshots (a ++ b) = snapshots a ++ snapshots b := by
  unfold snapshots
  exact List.filterMap_append a b _

theorem snapshots_cons_drawingData (recips : List String) (ev : String)
    (l : List JsObj) (rest : List Out) :
    snapshots (⟨recips, ev, .drawingData l⟩ :: rest) = l :: snapshots rest := by
  simp [snapshots]

theorem leaveRoomS_snapshots (s : SState) (sid rid : String) (now : Nat) :
    snapshots (leaveRoomS s sid rid now).2 = [] := by
  by_cases h0 : rid = ""
  · simp [leaveRoomS, h0, snapshots]
  · cases hu : s.rooms rid with
    | none => simp [leaveRoomS, h0, hu, snapshots]
    | some users =>
      by_cases hz : (users.erase sid).length = 0 <;>
        simp [leaveRoomS, h0, hu, hz, snapshots]

theorem leaveRoomS_keeps (s : SState) (sid rid : String) (now : Nat) :
    (leaveRoomS s sid rid now).1.roomDrawings = s.roomDrawings ∧
    (leaveRoomS s sid rid now).1.recorded = s.recorded ∧
    (leaveRoomS s sid rid now).1.clearedEver = s.clearedEver := by
  by_cases h0 : rid = ""
  · rw [h0, leaveRoomS_empty_id]
    exact ⟨rfl, rfl, rfl⟩
  · cases hu : s.rooms rid with
    | none =>
      rw [leaveRoomS_absent s sid rid now h0 hu]
      exact ⟨rfl, rfl, rfl⟩
    | some users =>
      by_cases hz : users.erase sid = []
      · rw [leaveRoomS_zero s sid rid now users h0 hu hz]
        exact ⟨rfl, rfl, rfl⟩
      · rw [leaveRoomS_pos s sid rid now users h0 hu hz]
        exact ⟨rfl, rfl, rfl⟩

theorem leaveRoomS_lapsed_ne (s : SState) (sid rid : String) (now : Nat)
    (R : String) (hne : R ≠ rid) :
    (leaveRoomS s sid rid now).1.lapsedEver R = s.lapsedEver R := by
  by_cases h0 : rid = ""
  · rw [h0, leaveRoomS_empty_id]
  · cases hu : s.rooms rid with
    | none =>
      rw [leaveRoomS_absent s sid rid now h0 hu]
    | some users =>
      by_cases hz : users.erase sid = []
      · rw [leaveRoomS_zero s sid rid now users h0 hu hz]
        simp [hne]
      · rw [leaveRoomS_pos s sid rid now users h0 hu hz]

theorem joinCore_snapshot (s : SState) (sid R uid : String) (h : SInv s)
    (hl : s.lapsedEver R = false) (hc : s.clearedEver R = false) :
    ∃ rest, (joinCore s sid R uid).2 =
        ⟨[sid], "drawing-data", .drawingData (s.recorded R)⟩ :: rest ∧
      snapshots rest = [] := by
  cases hu : s.rooms R with
  | none =>
    have hrec : s.recorded R = [] := by
      by_contra hne
      have := h.recordedRoom R hl hne
      rw [hu] at this
      simp at this
    rw [joinCore_absent s sid R uid hu, hrec]
    exact ⟨_, rfl, by simp [snapshots]⟩
  | some users =>
    have hgl : drawingsD s R = s.recorded R := h.logGhost R hl hc
    rw [joinCore_present s sid R uid users hu, hgl]
    exact ⟨_, rfl, by simp [snapshots]⟩

theorem stepJoin_none (s : SState) (sid rid0 : String) (uidOpt : Option String)
    (now : Nat) (hs : s.sessions sid = none) :
    stepJoin s sid rid0 uidOpt now =
      joinCore s sid (normalizeRoomId rid0) (resolveUid uidOpt now) := by
  unfold stepJoin
  rw [hs]

theorem stepJoin_some (s : SState) (sid rid0 : String) (uidOpt : Option String)
    (now : Nat) (prev : Session) (hs : s.sessions sid = some prev) :
    stepJoin s sid rid0 uidOpt now =
      ((joinCore (leaveRoomS s sid prev.roomId now).1 sid
          (normalizeRoomId rid0) (resolveUid uidOpt now)).1,
       (leaveRoomS s sid prev.roomId now).2 ++
         (joinCore (leaveRoomS s sid prev.roomId now).1 sid
           (normalizeRoomId rid0) (resolveUid uidOpt now)).2) := by
  unfold stepJoin
  rw [hs]

/-- Claim C1 (amended): a connection joining a room receives a
`drawing-data` snapshot carrying exactly the draw-end stroke commands
recorded for that room, in completion order — provided the room's
membership never dropped to zero, no clear-canvas was processed for it, and
the join does not itself empty the room first (the joiner is not the sole
member of the same room rejoining it).  `(run t).recorded R` is by
construction the list of draw-end commands appended for room `R`, in the
order their `draw-end` events were processed. -/
theorem join_snapshot_replays_recorded (t : List Ev) (sid rid0 : String)
    (uidOpt : Option String) (now : Nat)
    (hl : (run t).lapsedEver (normalizeRoomId rid0) = false)
    (hc : (run t).clearedEver (normalizeRoomId rid0) = false)
    (hj : ∀ sess, (run t).sessions sid = some sess →
      sess.roomId = normalizeRoomId rid0 →
      (membersD (run t) (normalizeRoomId rid0)).erase sid ≠ []) :
    snapshots (stepJoin (run t) sid rid0 uidOpt now).2 =
      [(run t).recorded (normalizeRoomId rid0)] ∧
    (⟨[sid], "drawing-data",
        .drawingData ((run t).recorded (normalizeRoomId rid0))⟩ : Out) ∈
      (stepJoin (run t) sid rid0 uidOpt now).2 := by
  have hinv : SInv (run t) := inv_run t
  cases hs : (run t).sessions sid with
  | none =>
    rw [stepJoin_none (run t) sid rid0 uidOpt now hs]
    obtain ⟨rest, h2, hrest⟩ :=
      joinCore_snapshot (run t) sid (normalizeRoomId rid0)
        (resolveUid uidOpt now) hinv hl hc
    refine ⟨?_, ?_⟩
    · rw [h2, snapshots_cons_drawingData, hrest]
    · rw [h2]
      exact List.mem_cons_self _ _
  | some prev =>
    rw [stepJoin_some (run t) sid rid0 uidOpt now prev hs]
    have f1 : SInv (leaveRoomS (run t) sid prev.roomId now).1 :=
      inv_leaveRoomS (run t) sid prev.roomId now hinv
    have hkeeps := leaveRoomS_keeps (run t) sid prev.roomId now
    have f3 : (leaveRoomS (run t) sid prev.roomId now).1.clearedEver
        (normalizeRoomId rid0) = false :=
      (congrFun hkeeps.2.2 (normalizeRoomId rid0)).trans hc
    have f4 : (leaveRoomS (run t) sid prev.roomId now).1.recorded
        (normalizeRoomId rid0) = (run t).recorded (normalizeRoomId rid0) :=
      congrFun hkeeps.2.1 (normalizeRoomId rid0)
    have f2 : (leaveRoomS (run t) sid prev.roomId now).1.lapsedEver
        (normalizeRoomId rid0) = false := by
      by_cases hpr : prev.roomId = normalizeRoomId rid0
      · by_cases h0 : prev.roomId = ""
        · rw [h0, leaveRoomS_empty_id]
          exact hl
        · obtain ⟨users, hu, _⟩ := hinv.sessionMember sid prev hs
          have hmem : membersD (run t) (normalizeRoomId rid0) = users := by
            rw [membersD, ← hpr, hu]
            rfl
          have herase : users.erase sid ≠ [] := by
            have := hj prev hs hpr
            rw [hmem] at this
            exact this
          rw [leaveRoomS_pos (run t) sid prev.roomId now users h0 hu herase]
          exact hl
      · rw [leaveRoomS_lapsed_ne (run t) sid prev.roomId now
            (normalizeRoomId rid0) (fun heq => hpr heq.symm)]
        exact hl
    obtain ⟨rest, h2, hrest⟩ :=
      joinCore_snapshot (leaveRoomS (run t) sid prev.roomId now).1 sid
        (normalizeRoomId rid0) (resolveUid uidOpt now) f1 f2 f3
    refine ⟨?_, ?_⟩
    · rw [snapshots_append, leaveRoomS_snapshots, h2,
        snapshots_cons_drawingData, hrest, f4]
      rfl
    · refine List.mem_append_right _ ?_
      rw [h2, f4]
      exact List.mem_cons_self _ _

theorem join_snapshot_replays_recorded_witness :
    ((run [Ev.joinRoom "A" "ROOM02" (some "u") 0,
        Ev.drawEnd "A" [("color", JsVal.str "red")] 5]).recorded
        (normalizeRoomId "room02")).length = 1 ∧
    snapshots (stepJoin (run [Ev.joinRoom "A" "ROOM02" (some "u") 0,
        Ev.drawEnd "A" [("color", JsVal.str "red")] 5]) "B" "room02"
        (some "v") 9).2 =
      [(run [Ev.joinRoom "A" "ROOM02" (some "u") 0,
        Ev.drawEnd "A" [("color", JsVal.str "red")] 5]).recorded
        (normalizeRoomId "room02")] :=
  ⟨by decide,
    (join_snapshot_replays_recorded
      [Ev.joinRoom "A" "ROOM02" (some "u") 0,
       Ev.drawEnd "A" [("color", JsVal.str "red")] 5] "B" "room02"
      (some "v") 9 (by decide) (by decide)
      (by
        intro sess hsess _
        rw [(by decide : (run [Ev.joinRoom "A" "ROOM02" (some "u") 0,
          Ev.drawEnd "A" [("color", JsVal.str "red")] 5]).sessions "B" =
            none)] at hsess
        exact Option.noConfusion hsess)).1⟩

/-- Claim C1 counterexample: one draw-end stroke is recorded for room
`ROOM03` and no clear-canvas is ever processed, yet the connection `D`
joining afterwards receives a snapshot whose log is empty (length 0, not 1),
because the room's only member had left in between and the join handler
reinitializes the drawing log of a room absent from `rooms`. -/
theorem join_snapshot_after_lapse_cx :
    ((run [Ev.joinRoom "C" "ROOM03" (some "w") 0,
        Ev.drawEnd "C" [] 1]).recorded "ROOM03").length = 1 ∧
    (run [Ev.joinRoom "C" "ROOM03" (some "w") 0,
        Ev.drawEnd "C" [] 1]).roomDrawings "ROOM03" =
      some [mkDrawEndData [] "w" "C" 1] ∧
    (run [Ev.joinRoom "C" "ROOM03" (some "w") 0, Ev.drawEnd "C" [] 1,
        Ev.leaveRoom "C" 2]).clearedEver "ROOM03" = false ∧
    snapshots (stepJoin (run [Ev.joinRoom "C" "ROOM03" (some "w") 0,
        Ev.drawEnd "C" [] 1, Ev.leaveRoom "C" 2]) "D" "ROOM03"
        (some "x") 3).2 = [[]] := by
  decide

/-- Claim C3: the room's log survives the last leave and a discard is
scheduled after the grace window (conjuncts 1-2), and the deferred discard
re-checks membership at fire time — it discards only if the room is still
empty (conjuncts 5-6).  But the rejoining connection does not retrieve the
log: its snapshot is empty and the retained log has been reinitialized by
the rejoin itself (conjuncts 3-4), contradicting the retention's purpose
(`// Keep drawings for a while in case users rejoin`). -/
theorem grace_window_rejoin_wipes_log :
    (run [Ev.joinRoom "A" "ROOM01" (some "u") 0, Ev.drawEnd "A" [] 1000,
        Ev.leaveRoom "A" 2000]).roomDrawings "ROOM01" =
      some [mkDrawEndData [] "u" "A" 1000] ∧
    (run [Ev.joinRoom "A" "ROOM01" (some "u") 0, Ev.drawEnd "A" [] 1000,
        Ev.leaveRoom "A" 2000]).pending = [("ROOM01", 2000 + graceWindowMs)] ∧
    snapshots (stepJoin (run [Ev.joinRoom "A" "ROOM01" (some "u") 0,
        Ev.drawEnd "A" [] 1000, Ev.leaveRoom "A" 2000]) "A" "ROOM01"
        (some "u") 3000).2 = [[]] ∧
    (stepJoin (run [Ev.joinRoom "A" "ROOM01" (some "u") 0,
        Ev.drawEnd "A" [] 1000, Ev.leaveRoom "A" 2000]) "A" "ROOM01"
        (some "u") 3000).1.roomDrawings "ROOM01" = some [] ∧
    (stepTimer (run [Ev.joinRoom "A" "ROOM01" (some "u") 0,
        Ev.drawEnd "A" [] 1000, Ev.leaveRoom "A" 2000]) "ROOM01"
        (2000 + graceWindowMs)).1.roomDrawings "ROOM01" = none ∧
    (stepTimer (stepJoin (run [Ev.joinRoom "A" "ROOM01" (some "u") 0,
        Ev.drawEnd "A" [] 1000, Ev.leaveRoom "A" 2000]) "A" "ROOM01"
        (some "u") 3000).1 "ROOM01"
        (2000 + graceWindowMs)).1.roomDrawings "ROOM01" = some [] :=
  ⟨by decide, by decide, by decide, by decide, by decide, by decide⟩

/-- Claim C2: with a session, cursor-move / draw-start / draw-move /
draw-end broadcast to every current room member except the sender
(`socket.to`), while clear-canvas is delivered to every member, the sender
included (`io.to`). -/
theorem broadcast_fanout (s : SState) (sid : String) (sess : Session)
    (x y : JsVal) (d : JsObj) (now : Nat)
    (hs : s.sessions sid = some sess)
    (hmem : sid ∈ membersD s sess.roomId) :
    ((stepCursor s sid x y now).2.map Out.recipients =
      [sockTo s sess.roomId sid]) ∧
    ((stepDrawStart s sid d now).2.map Out.recipients =
      [sockTo s sess.roomId sid]) ∧
    ((stepDrawMove s sid d now).2.map Out.recipients =
      [sockTo s sess.roomId sid]) ∧
    ((stepDrawEnd s sid d now).2.map Out.recipients =
      [sockTo s sess.roomId sid]) ∧
    ((stepClear s sid now).2.map Out.recipients = [ioTo s sess.roomId]) ∧
    (∀ z, z ∈ sockTo s sess.roomId sid ↔
      z ∈ membersD s sess.roomId ∧ z ≠ sid) ∧
    ioTo s sess.roomId = membersD s sess.roomId ∧
    sid ∈ ioTo s sess.roomId := by
  refine ⟨?_, ?_, ?_, ?_, ?_, ?_, rfl, hmem⟩
  · simp [stepCursor, hs]
  · simp [stepDrawStart, hs]
  · simp [stepDrawMove, hs]
  · simp only [stepDrawEnd, hs]
    rfl
  · simp only [stepClear, hs]
    rfl
  · intro z
    simp [sockTo, List.mem_filter]

theorem broadcast_fanout_witness :
    ((stepClear (run [Ev.joinRoom "A" "ROOM04" (some "u") 0,
        Ev.joinRoom "B" "ROOM04" (some "v") 1]) "A" 7).2.map Out.recipients =
      [ioTo (run [Ev.joinRoom "A" "ROOM04" (some "u") 0,
        Ev.joinRoom "B" "ROOM04" (some "v") 1]) (Session.mk "ROOM04" "u").roomId]) ∧
    "A" ∈ ioTo (run [Ev.joinRoom "A" "ROOM04" (some "u") 0,
        Ev.joinRoom "B" "ROOM04" (some "v") 1]) (Session.mk "ROOM04" "u").roomId :=
  have h := broadcast_fanout
    (run [Ev.joinRoom "A" "ROOM04" (some "u") 0,
      Ev.joinRoom "B" "ROOM04" (some "v") 1]) "A" ⟨"ROOM04", "u"⟩
    (.num 1) (.num 2) [] 7 (by decide) (by decide)
  ⟨h.2.2.2.2.1, h.2.2.2.2.2.2.2⟩

/-- Claim C5: clear-canvas resets the room's drawing log to the empty
array, leaves every other room's log alone, and changes neither the
membership map nor the session map. -/
theorem clear_canvas_truncates_log (s : SState) (sid : String)
    (sess : Session) (now : Nat) (hs : s.sessions sid = some sess) :
    (stepClear s sid now).1.roomDrawings sess.roomId = some [] ∧
    (∀ r, r ≠ sess.roomId →
      (stepClear s sid now).1.roomDrawings r = s.roomDrawings r) ∧
    (stepClear s sid now).1.rooms = s.rooms ∧
    (stepClear s sid now).1.sessions = s.sessions := by
  unfold stepClear
  rw [hs]
  exact ⟨upd_same _ _ _, fun r hr => upd_ne _ _ hr, rfl, rfl⟩

theorem clear_canvas_truncates_log_witness :
    (stepClear (run [Ev.joinRoom "A" "ROOM06" (some "u") 0,
        Ev.drawEnd "A" [] 1]) "A" 2).1.roomDrawings
      (Session.mk "ROOM06" "u").roomId = some [] ∧
    (stepClear (run [Ev.joinRoom "A" "ROOM06" (some "u") 0,
        Ev.drawEnd "A" [] 1]) "A" 2).1.rooms =
      (run [Ev.joinRoom "A" "ROOM06" (some "u") 0,
        Ev.drawEnd "A" [] 1]).rooms :=
  have h := clear_canvas_truncates_log
    (run [Ev.joinRoom "A" "ROOM06" (some "u") 0, Ev.drawEnd "A" [] 1])
    "A" ⟨"ROOM06", "u"⟩ 2 (by decide)
  ⟨h.1, h.2.2.1⟩

/-- Claim C6: draw-start and draw-move never change any room's drawing log
(whether or not a session exists); only draw-end appends — exactly one
command, of type `'stroke'`, to the sender's room. -/
theorem only_draw_end_persisted (s : SState) (sid : String) (sess : Session)
    (d : JsObj) (now : Nat) (hs : s.sessions sid = some sess) :
    (∀ s2 sid2 d2 now2, (stepDrawStart s2 sid2 d2 now2).1.roomDrawings =
      SState.roomDrawings s2) ∧
    (∀ s2 sid2 d2 now2, (stepDrawMove s2 sid2 d2 now2).1.roomDrawings =
      SState.roomDrawings s2) ∧
    (stepDrawEnd s sid d now).1.roomDrawings sess.roomId =
      some (drawingsD s sess.roomId ++ [mkDrawEndData d sess.userId sid now]) ∧
    (∀ r, r ≠ sess.roomId →
      (stepDrawEnd s sid d now).1.roomDrawings r = s.roomDrawings r) ∧
    getProp (mkDrawEndData d sess.userId sid now) "type" =
      some (.str "stroke") := by
  refine ⟨?_, ?_, ?_, ?_, ?_⟩
  · intro s2 sid2 d2 now2
    unfold stepDrawStart
    cases s2.sessions sid2 <;> rfl
  · intro s2 sid2 d2 now2
    unfold stepDrawMove
    cases s2.sessions sid2 <;> rfl
  · unfold stepDrawEnd
    rw [hs]
    exact upd_same _ _ _
  · intro r hr
    unfold stepDrawEnd
    rw [hs]
    exact upd_ne _ _ hr
  · unfold mkDrawEndData
    exact getProp_setProp_same _ _ _

theorem only_draw_end_persisted_witness :
    (stepDrawEnd (run [Ev.joinRoom "A" "ROOM07" (some "u") 0]) "A" [] 3).1.roomDrawings
      (Session.mk "ROOM07" "u").roomId =
      some (drawingsD (run [Ev.joinRoom "A" "ROOM07" (some "u") 0])
          (Session.mk "ROOM07" "u").roomId ++
        [mkDrawEndData [] (Session.mk "ROOM07" "u").userId "A" 3]) ∧
    getProp (mkDrawEndData [] (Session.mk "ROOM07" "u").userId "A" 3) "type" =
      some (.str "stroke") :=
  have h := only_draw_end_persisted
    (run [Ev.joinRoom "A" "ROOM07" (some "u") 0]) "A" ⟨"ROOM07", "u"⟩ [] 3
    (by decide)
  ⟨h.2.2.1, h.2.2.2.2⟩

/-- Claim C9: every per-connection event arriving without a session is
silently dropped — the state is unchanged and nothing is emitted. -/
theorem orphan_events_dropped (s : SState) (sid : String) (x y : JsVal)
    (d : JsObj) (now : Nat) (hn : s.sessions sid = none) :
    stepCursor s sid x y now = (s, []) ∧
    stepDrawStart s sid d now = (s, []) ∧
    stepDrawMove s sid d now = (s, []) ∧
    stepDrawEnd s sid d now = (s, []) ∧
    stepClear s sid now = (s, []) := by
  refine ⟨?_, ?_, ?_, ?_, ?_⟩
  · unfold stepCursor
    rw [hn]
  · unfold stepDrawStart
    rw [hn]
  · unfold stepDrawMove
    rw [hn]
  · unfold stepDrawEnd
    rw [hn]
  · unfold stepClear
    rw [hn]

theorem orphan_events_dropped_witness :
    stepCursor init "Z" (.num 3) (.num 4) 5 = (init, []) ∧
    stepClear init "Z" 5 = (init, []) :=
  have h := orphan_events_dropped init "Z" (.num 3) (.num 4) [] 5 (by decide)
  ⟨h.1, h.2.2.2.2⟩

/-- Claim C10: the broadcast payloads of draw-start / draw-move / draw-end
(and the logged draw-end command) are built by spreading the client data and
then assigning `userId`, `socketId`, `timestamp` (and `type` for draw-end)
from the server's session, so a client-supplied value for any of those keys
never survives into the broadcast or the log. -/
theorem server_overrides_identity_fields (s : SState) (sid : String)
    (sess : Session) (d : JsObj) (now : Nat)
    (hs : s.sessions sid = some sess) :
    ((stepDrawStart s sid d now).2.map Out.payload =
      [.obj (mkDrawData d sess.userId sid now)]) ∧
    ((stepDrawMove s sid d now).2.map Out.payload =
      [.obj (mkDrawData d sess.userId sid now)]) ∧
    ((stepDrawEnd s sid d now).2.map Out.payload =
      [.obj (mkDrawEndData d sess.userId sid now)]) ∧
    ((stepDrawEnd s sid d now).1.roomDrawings sess.roomId =
      some (drawingsD s sess.roomId ++
        [mkDrawEndData d sess.userId sid now])) ∧
    (∀ o u i ts,
      getProp (mkDrawData o u i ts) "userId" = some (.str u) ∧
      getProp (mkDrawData o u i ts) "socketId" = some (.str i) ∧
      getProp (mkDrawData o u i ts) "timestamp" = some (.num ts)) ∧
    (∀ o u i ts,
      getProp (mkDrawEndData o u i ts) "userId" = some (.str u) ∧
      getProp (mkDrawEndData o u i ts) "socketId" = some (.str i) ∧
      getProp (mkDrawEndData o u i ts) "timestamp" = some (.num ts) ∧
      getProp (mkDrawEndData o u i ts) "type" = some (.str "stroke")) := by
  refine ⟨?_, ?_, ?_, ?_, ?_, ?_⟩
  · simp [stepDrawStart, hs]
  · simp [stepDrawMove, hs]
  · simp [stepDrawEnd, hs]
  · unfold stepDrawEnd
    rw [hs]
    exact upd_same _ _ _
  · intro o u i ts
    unfold mkDrawData
    exact ⟨by rw [getProp_setProp_ne _ _ (by decide),
        getProp_setProp_ne _ _ (by decide), getProp_setProp_same],
      by rw [getProp_setProp_ne _ _ (by decide), getProp_setProp_same],
      getProp_setProp_same _ _ _⟩
  · intro o u i ts
    unfold mkDrawEndData mkDrawData
    exact ⟨by rw [getProp_setProp_ne _ _ (by decide),
        getProp_setProp_ne _ _ (by decide),
        getProp_setProp_ne _ _ (by decide), getProp_setProp_same],
      by rw [getProp_setProp_ne _ _ (by decide),
        getProp_setProp_ne _ _ (by decide), getProp_setProp_same],
      by rw [getProp_setProp_ne _ _ (by decide), getProp_setProp_same],
      getProp_setProp_same _ _ _⟩

theorem server_overrides_identity_fields_witness :
    getProp (mkDrawEndData [("userId", JsVal.str "spoofed"),
        ("type", JsVal.str "fake")] "u" "A" 3) "userId" =
      some (.str "u") ∧
    getProp (mkDrawEndData [("userId", JsVal.str "spoofed"),
        ("type", JsVal.str "fake")] "u" "A" 3) "type" =
      some (.str "stroke") :=
  have h := server_overrides_identity_fields
    (run [Ev.joinRoom "A" "ROOM08" (some "u") 0]) "A" ⟨"ROOM08", "u"⟩
    [("userId", JsVal.str "spoofed"), ("type", JsVal.str "fake")] 3
    (by decide)
  ⟨(h.2.2.2.2.2 [("userId", JsVal.str "spoofed"),
      ("type", JsVal.str "fake")] "u" "A" 3).1,
    (h.2.2.2.2.2 [("userId", JsVal.str "spoofed"),
      ("type", JsVal.str "fake")] "u" "A" 3).2.2.2⟩

/-- Claim C4 (amended): the socket join path and the REST join endpoints
key every lookup and store on the uppercased-and-trimmed room id, but the
read-only `GET /api/rooms/:roomId` endpoint of `server.js` uppercases its
lookup key without trimming it. -/
theorem room_key_normalization (s : SState) (sid rid0 : String)
    (uidOpt : Option String) (now : Nat)
    (hfree : s.sessions sid = none) :
    (∃ m, (stepJoin s sid rid0 uidOpt now).1.rooms (normalizeRoomId rid0) =
        some m ∧ sid ∈ m) ∧
    (stepJoin s sid rid0 uidOpt now).1.sessions sid =
      some ⟨normalizeRoomId rid0, resolveUid uidOpt now⟩ ∧
    (∀ r, r ≠ normalizeRoomId rid0 →
      (stepJoin s sid rid0 uidOpt now).1.rooms r = s.rooms r ∧
      (stepJoin s sid rid0 uidOpt now).1.roomDrawings r =
        s.roomDrawings r) ∧
    (∀ resp, restJoin s rid0 = some resp →
      resp.1 = normalizeRoomId rid0 ∧
      resp.2.1 = drawingsD s (normalizeRoomId rid0)) ∧
    (getRoomInfo s rid0).roomId = jsToUpper rid0 := by
  rw [stepJoin_none s sid rid0 uidOpt now hfree]
  refine ⟨?_, joinCore_sessions_self s sid _ _, ?_, ?_, rfl⟩
  · cases hu : s.rooms (normalizeRoomId rid0) with
    | none =>
      rw [joinCore_absent s sid _ _ hu]
      exact ⟨[sid], upd_same _ _ _, by simp⟩
    | some users =>
      rw [joinCore_present s sid _ _ users hu]
      exact ⟨addMember users sid, upd_same _ _ _, mem_addMember_self users sid⟩
  · intro r hr
    cases hu : s.rooms (normalizeRoomId rid0) with
    | none =>
      rw [joinCore_absent s sid _ _ hu]
      exact ⟨upd_ne _ _ hr, upd_ne _ _ hr⟩
    | some users =>
      rw [joinCore_present s sid _ _ users hu]
      exact ⟨upd_ne _ _ hr, rfl⟩
  · intro resp hresp
    unfold restJoin at hresp
    by_cases hval : validRoomId (normalizeRoomId rid0) = true
    · simp only [hval, if_true] at hresp
      obtain rfl : (normalizeRoomId rid0,
          drawingsD s (normalizeRoomId rid0),
          (membersD s (normalizeRoomId rid0)).length) = resp := by
        injection hresp
      exact ⟨rfl, rfl⟩
    · rw [if_neg hval] at hresp
      exact Option.noConfusion hresp

theorem room_key_normalization_witness :
    (∃ m, (stepJoin init "A" " abc123" (some "u") 0).1.rooms
        (normalizeRoomId " abc123") = some m ∧ "A" ∈ m) ∧
    (getRoomInfo init " abc123").roomId = jsToUpper " abc123" :=
  have h := room_key_normalization init "A" " abc123" (some "u") 0 (by decide)
  ⟨h.1, h.2.2.2.2⟩

/-- Claim C4 counterexample: with room `ABC123` live (one member), the
read-only room-info endpoint looks up `" abc123"` under the merely
uppercased key `" ABC123"`, which is not the normalized key `"ABC123"`, and
therefore misses the room. -/
theorem room_info_untrimmed_cx :
    normalizeRoomId " abc123" = "ABC123" ∧
    (getRoomInfo (run [Ev.joinRoom "A" "ABC123" (some "u") 0])
        " abc123").roomId = " ABC123" ∧
    (getRoomInfo (run [Ev.joinRoom "A" "ABC123" (some "u") 0])
        " abc123").activeUsers = 0 ∧
    (getRoomInfo (run [Ev.joinRoom "A" "ABC123" (some "u") 0])
        "abc123").activeUsers = 1 ∧
    (" ABC123" : String) ≠ "ABC123" :=
  ⟨by decide, by decide, by decide, by decide, by decide⟩

/-- Claim C7 (amended): along traces whose join events carry room ids that
are nonempty after normalization (anything that passed the `[A-Z0-9]{6,8}`
validation is), a connection is a member of at most one room at any
instant, and a join-room tears the connection out of its prior room before
creating the new session. -/
theorem connection_in_at_most_one_room (t : List Ev)
    (hv : validJoins t = true) :
    (∀ sid r₁ r₂ m₁ m₂, (run t).rooms r₁ = some m₁ →
      (run t).rooms r₂ = some m₂ → sid ∈ m₁ → sid ∈ m₂ → r₁ = r₂) ∧
    (∀ sid prev rid0 uidOpt now r m, (run t).sessions sid = some prev →
      normalizeRoomId rid0 ≠ "" → r ≠ normalizeRoomId rid0 →
      (stepJoin (run t) sid rid0 uidOpt now).1.rooms r = some m →
      sid ∉ m) := by
  have hmsn := msn_run t hv
  constructor
  · intro sid r₁ r₂ m₁ m₂ h₁ h₂ hm₁ hm₂
    obtain ⟨u₁, hu₁⟩ := hmsn.1 r₁ m₁ sid h₁ hm₁
    obtain ⟨u₂, hu₂⟩ := hmsn.1 r₂ m₂ sid h₂ hm₂
    rw [hu₁] at hu₂
    injection hu₂ with h
    exact congrArg Session.roomId h
  · intro sid prev rid0 uidOpt now r m hsess hval hr hm hmem
    have hpost : (stepJoin (run t) sid rid0 uidOpt now).1 =
        run (t ++ [Ev.joinRoom sid rid0 uidOpt now]) := by
      rw [run_snoc]
      rfl
    have hv' : validJoins (t ++ [Ev.joinRoom sid rid0 uidOpt now]) = true := by
      unfold validJoins at hv ⊢
      rw [List.all_append, hv]
      simp [validJoin, hval]
    have hmsn' := msn_run _ hv'
    have hsid := stepJoin_sessions_self (run t) sid rid0 uidOpt now
    rw [hpost] at hm hsid
    obtain ⟨u, hu⟩ := hmsn'.1 r m sid hm hmem
    rw [hu] at hsid
    injection hsid with h
    exact hr (congrArg Session.roomId h)

theorem connection_in_at_most_one_room_witness :
    ("ROOM05" : String) = "ROOM05" ∧
    ("A" : String) ∉ (["B"] : List String) :=
  have h := connection_in_at_most_one_room
    [Ev.joinRoom "B" "ROOM05" (some "v") 0,
     Ev.joinRoom "A" "ROOM05" (some "u") 1] (by decide)
  ⟨h.1 "A" "ROOM05" "ROOM05" ["B", "A"] ["B", "A"] (by decide) (by decide)
      (by decide) (by decide),
    h.2 "A" ⟨"ROOM05", "u"⟩ "XYZ789" (some "u") 5 "ROOM05" ["B"]
      (by decide) (by decide) (by decide) (by decide)⟩

/-- Claim C7 counterexample: joining with the whitespace-only id `" "`
creates a room whose normalized id is the empty string; because the empty
string is falsy in JavaScript, `leaveRoom` returns early for it, so a
subsequent join to `XYZ789` leaves the connection in the member sets of two
distinct rooms at once. -/
theorem whitespace_room_double_membership_cx :
    (run [Ev.joinRoom "A" " " (some "u") 0,
        Ev.joinRoom "A" "XYZ789" (some "u") 1]).rooms "" = some ["A"] ∧
    (run [Ev.joinRoom "A" " " (some "u") 0,
        Ev.joinRoom "A" "XYZ789" (some "u") 1]).rooms "XYZ789" =
      some ["A"] ∧
    ("" : String) ≠ "XYZ789" :=
  ⟨by decide, by decide, by decide⟩

/-- Claim C8 (amended): when the session's room id is nonempty (as any
validated id is) and the room is tracked, Leave removes the session and the
connection's membership; with no session, leave-room and disconnect are
no-ops; a second Leave in a row never changes state or emits; disconnect
and leave-room run the same handler body. -/
theorem leave_removes_session_and_membership (s : SState) (sid : String)
    (sess : Session) (users : List String) (now : Nat)
    (hs : s.sessions sid = some sess) (hne : sess.roomId ≠ "")
    (hu : s.rooms sess.roomId = some users) (hnd : users.Nodup) :
    (stepLeave s sid now).1.sessions sid = none ∧
    sid ∉ membersD (stepLeave s sid now).1 sess.roomId ∧
    (∀ s2 sid2 now2, s2.sessions sid2 = none →
      stepLeave s2 sid2 now2 = (s2, []) ∧
      stepDisconnect s2 sid2 now2 = (s2, [])) ∧
    (∀ s2 sid2 now2 now3,
      stepLeave (stepLeave s2 sid2 now2).1 sid2 now3 =
        ((stepLeave s2 sid2 now2).1, [])) ∧
    (∀ s2 sid2 now2, stepDisconnect s2 sid2 now2 = stepLeave s2 sid2 now2) := by
  refine ⟨?_, ?_, ?_, ?_, ?_⟩
  · unfold stepLeave
    rw [hs]
    exact leaveRoomS_sessions_self s sid sess.roomId now users hne hu
  · unfold stepLeave
    rw [hs]
    by_cases hz : users.erase sid = []
    · rw [leaveRoomS_zero s sid sess.roomId now users hne hu hz]
      simp [membersD, upd_same]
    · rw [leaveRoomS_pos s sid sess.roomId now users hne hu hz]
      simp only [membersD, upd_same, Option.getD_some]
      exact hnd.not_mem_erase
  · intro s2 sid2 now2 hn2
    constructor
    · unfold stepLeave
      rw [hn2]
    · unfold stepDisconnect
      rw [hn2]
  · intro s2 sid2 now2 now3
    cases hs2 : s2.sessions sid2 with
    | none =>
      have h1 : stepLeave s2 sid2 now2 = (s2, []) := by
        simp only [stepLeave, hs2]
      rw [h1]
      simp only [stepLeave, hs2]
    | some sess2 =>
      by_cases h0 : sess2.roomId = ""
      · have h1 : stepLeave s2 sid2 now2 = (s2, []) := by
          simp only [stepLeave, hs2, h0, leaveRoomS_empty_id]
        rw [h1]
        simp only [stepLeave, hs2, h0, leaveRoomS_empty_id]
      · cases hu2 : s2.rooms sess2.roomId with
        | none =>
          have h1 : stepLeave s2 sid2 now2 = (s2, []) := by
            simp only [stepLeave, hs2]
            exact leaveRoomS_absent s2 sid2 sess2.roomId now2 h0 hu2
          rw [h1]
          simp only [stepLeave, hs2]
          exact leaveRoomS_absent s2 sid2 sess2.roomId now3 h0 hu2
        | some users2 =>
          have h1 : (stepLeave s2 sid2 now2).1.sessions sid2 = none := by
            simp only [stepLeave, hs2]
            exact leaveRoomS_sessions_self s2 sid2 sess2.roomId now2 users2
              h0 hu2
          set s3 := (stepLeave s2 sid2 now2).1 with hs3
          simp only [stepLeave, h1]
  · intro s2 sid2 now2
    rfl

theorem leave_removes_session_and_membership_witness :
    (stepLeave (run [Ev.joinRoom "A" "ROOM09" (some "u") 0]) "A" 1).1.sessions
      "A" = none ∧
    "A" ∉ membersD
      (stepLeave (run [Ev.joinRoom "A" "ROOM09" (some "u") 0]) "A" 1).1
      (Session.mk "ROOM09" "u").roomId :=
  have h := leave_removes_session_and_membership
    (run [Ev.joinRoom "A" "ROOM09" (some "u") 0]) "A" ⟨"ROOM09", "u"⟩
    ["A"] 1 (by decide) (by decide) (by decide) (by decide)
  ⟨h.1, h.2.1⟩

/-- Claim C8 counterexample: after joining with the whitespace-only id
`" "` (normalized to the empty string), leave-room removes neither the
session nor the membership — `leaveRoom`'s `!roomId` guard returns early on
the falsy empty id. -/
theorem whitespace_room_leave_noop_cx :
    (run [Ev.joinRoom "A" " " (some "u") 0]).sessions "A" =
      some ⟨"", "u"⟩ ∧
    (stepLeave (run [Ev.joinRoom "A" " " (some "u") 0]) "A" 1).1.sessions
      "A" = some ⟨"", "u"⟩ ∧
    membersD (stepLeave (run [Ev.joinRoom "A" " " (some "u") 0]) "A" 1).1
      "" = ["A"] :=
  ⟨by decide, by decide, by decide⟩
